import Mathlib

/-!
Verification of the `icarus/256kb` repository: a canvas sketch app with a
Lissajous spring/sequencer simulation (`LissajousSketch`, second revision in
the sources), a fixed-duration canvas capture-and-export hook
(`useCanvasRecorder`), and the page component wiring them together.

The development embeds the relevant program logic shallowly:

* the capture loop of `startRecording` (`captureFrame`) is modelled over ℚ,
  with the callback timestamp sequence given as a list of elapsed times
  (elapsed = timestamp - startTime, so a strictly increasing timestamp
  sequence is exactly a strictly increasing elapsed sequence);
* the simulation (`applySpringForce`, `switchTarget`, `updateLogic`, the
  `mode` setter, `drawHarmonic`) is modelled over ℝ, reading JavaScript
  float arithmetic as real arithmetic (`Math.pow(x, 6.0)` for `x ≥ 0` is
  `x ^ (6 : ℕ)`, `Math.sqrt` is `Real.sqrt`);
* the React component state touched by `handleExport` / `startRecording`
  is modelled as explicit state records, with the scheduled capture start
  and the blocking alert surfaced as explicit outputs.
-/

/-! ## Capture loop of `useCanvasRecorder.startRecording`

Source constants: `totalDuration = 10000`, `fps = 60`,
`interval = 1000 / fps`.  Each `requestAnimationFrame` callback receives a
time; the loop stops (and encodes) once `elapsed >= totalDuration`, and
otherwise takes a snapshot and increments `frameCount` exactly when
`elapsed >= frameCount * interval`. -/

def totalDurationMs : ℚ := 10000

def frameIntervalMs : ℚ := 1000 / 60

/-- The capture loop of `captureFrame` in `use-canvas-recorder.ts`, run over
a list of elapsed callback times; returns the number of snapshots taken
(each snapshot is one `canvas.toBlob` call, paired with one increment of
`frameCount`). -/
def captureFrame : List ℚ → ℕ → ℕ
  | [], frameCount => frameCount
  | elapsed :: rest, frameCount =>
    if totalDurationMs ≤ elapsed then frameCount
    else if (frameCount : ℚ) * frameIntervalMs ≤ elapsed then
      captureFrame rest (frameCount + 1)
    else
      captureFrame rest frameCount

lemma frameIntervalMs_pos : 0 < frameIntervalMs := by norm_num [frameIntervalMs]

lemma six_hundred_intervals : (600 : ℚ) * frameIntervalMs = totalDurationMs := by
  norm_num [frameIntervalMs, totalDurationMs]

/-- The loop never takes more than 600 snapshots: the counter can only pass
a boundary index whose expected time is still below the total duration. -/
lemma captureFrame_le_600 (ts : List ℚ) :
    ∀ fc : ℕ, fc ≤ 600 → captureFrame ts fc ≤ 600 := by
  induction ts with
  | nil => intro fc h; simpa [captureFrame] using h
  | cons t ts ih =>
    intro fc h
    simp only [captureFrame]
    by_cases h1 : totalDurationMs ≤ t
    · simpa [h1] using h
    · by_cases h2 : (fc : ℚ) * frameIntervalMs ≤ t
      · have hfc : fc < 600 := by
          by_contra hge
          push_neg at hge
          have hc : (600 : ℚ) ≤ (fc : ℚ) := by exact_mod_cast hge
          have : totalDurationMs ≤ (fc : ℚ) * frameIntervalMs := by
            rw [← six_hundred_intervals]
            exact mul_le_mul_of_nonneg_right hc (le_of_lt frameIntervalMs_pos)
          exact h1 (le_trans this h2)
        simp only [if_neg h1, if_pos h2]
        exact ih (fc + 1) hfc
      · simp only [if_neg h1, if_neg h2]
        exact ih fc h

/-- If the callbacks are strictly increasing and at least one callback falls
inside every remaining expected-frame window, the loop reaches exactly 600
snapshots. -/
lemma captureFrame_eq_600_of_covered (ts : List ℚ) :
    ∀ fc : ℕ, List.Sorted (· < ·) ts → fc ≤ 600 →
      (∀ k : ℕ, fc ≤ k → k < 600 →
        ∃ t ∈ ts, (k : ℚ) * frameIntervalMs ≤ t ∧ t < ((k : ℚ) + 1) * frameIntervalMs) →
      captureFrame ts fc = 600 := by
  induction ts with
  | nil =>
    intro fc _ hle hcov
    rcases eq_or_lt_of_le hle with he | hlt
    · simpa [captureFrame] using he
    · obtain ⟨t, ht, -⟩ := hcov fc le_rfl hlt
      exact absurd ht (List.not_mem_nil t)
  | cons t ts ih =>
    intro fc hsort hle hcov
    have hts : ∀ u ∈ ts, t < u := (List.sorted_cons.mp hsort).1
    have hsort' : List.Sorted (· < ·) ts := (List.sorted_cons.mp hsort).2
    simp only [captureFrame]
    by_cases h1 : totalDurationMs ≤ t
    · rcases eq_or_lt_of_le hle with he | hlt
      · simpa [h1] using he
      · exfalso
        obtain ⟨w, hw, hw1, hw2⟩ := hcov fc le_rfl hlt
        have hfc1 : ((fc : ℚ) + 1) * frameIntervalMs ≤ totalDurationMs := by
          rw [← six_hundred_intervals]
          have : (fc : ℚ) + 1 ≤ 600 := by exact_mod_cast hlt
          exact mul_le_mul_of_nonneg_right this (le_of_lt frameIntervalMs_pos)
        have htw : t ≤ w := by
          rcases List.mem_cons.mp hw with rfl | hw'
          · exact le_rfl
          · exact le_of_lt (hts w hw')
        have : w < totalDurationMs := lt_of_lt_of_le hw2 hfc1
        exact absurd (lt_of_le_of_lt (le_trans h1 htw) this) (lt_irrefl _)
    · by_cases h2 : (fc : ℚ) * frameIntervalMs ≤ t
      · have hfc : fc < 600 := by
          by_contra hge
          push_neg at hge
          have hc : (600 : ℚ) ≤ (fc : ℚ) := by exact_mod_cast hge
          have : totalDurationMs ≤ (fc : ℚ) * frameIntervalMs := by
            rw [← six_hundred_intervals]
            exact mul_le_mul_of_nonneg_right hc (le_of_lt frameIntervalMs_pos)
          exact h1 (le_trans this h2)
        simp only [if_neg h1, if_pos h2]
        refine ih (fc + 1) hsort' hfc ?_
        intro k hk1 hk2
        obtain ⟨w, hw, hw1, hw2⟩ := hcov k (le_trans (Nat.le_succ fc) hk1) hk2
        rcases List.mem_cons.mp hw with rfl | hw'
        · exfalso
          obtain ⟨w', hw'', hw1', hw2'⟩ := hcov fc le_rfl hfc
          have htw' : w ≤ w' := by
            rcases List.mem_cons.mp hw'' with rfl | hmem
            · exact le_rfl
            · exact le_of_lt (hts w' hmem)
          have hstep : ((fc : ℚ) + 1) * frameIntervalMs ≤ (k : ℚ) * frameIntervalMs := by
            have : (fc : ℚ) + 1 ≤ (k : ℚ) := by exact_mod_cast hk1
            exact mul_le_mul_of_nonneg_right this (le_of_lt frameIntervalMs_pos)
          have h3 : w < ((fc : ℚ) + 1) * frameIntervalMs := lt_of_le_of_lt htw' hw2'
          exact absurd (lt_of_le_of_lt (le_trans hstep hw1) h3) (lt_irrefl _)
        · exact ⟨w, hw', hw1, hw2⟩
      · simp only [if_neg h1, if_neg h2]
        push_neg at h2
        refine ih fc hsort' hle ?_
        intro k hk1 hk2
        obtain ⟨w, hw, hw1, hw2⟩ := hcov k hk1 hk2
        rcases List.mem_cons.mp hw with rfl | hw'
        · exfalso
          have hstep : (fc : ℚ) * frameIntervalMs ≤ (k : ℚ) * frameIntervalMs := by
            have : (fc : ℚ) ≤ (k : ℚ) := by exact_mod_cast hk1
            exact mul_le_mul_of_nonneg_right this (le_of_lt frameIntervalMs_pos)
          exact absurd (lt_of_le_of_lt (le_trans hstep hw1) h2) (lt_irrefl _)
        · exact ⟨w, hw', hw1, hw2⟩

/-- C1 counterexample: the strictly increasing elapsed sequence
`[9000, 10000]` reaches 10000 ms but the loop takes a single snapshot, not
600 — the counter advances at most once per callback, so sparse callbacks
skip expected frame boundaries. -/
theorem captureFrame_sparse_callbacks :
    List.Sorted (· < ·) [(9000 : ℚ), 10000] ∧
      (∃ t ∈ [(9000 : ℚ), 10000], totalDurationMs ≤ t) ∧
      captureFrame [(9000 : ℚ), 10000] 0 = 1 := by
  refine ⟨?_, ⟨10000, by norm_num, by norm_num [totalDurationMs]⟩, ?_⟩
  · norm_num [List.sorted_cons]
  · norm_num [captureFrame, totalDurationMs, frameIntervalMs]

/-- C1 (amended): for every strictly increasing sequence of elapsed callback
times, the capture loop takes at most 600 snapshots; and if at least one
callback fires inside every expected-frame window
`[k * frameInterval, (k+1) * frameInterval)` for `k < 600`, it takes exactly
600 snapshots. -/
theorem captureFrame_jitter_bounds (ts : List ℚ)
    (hsort : List.Sorted (· < ·) ts) :
    captureFrame ts 0 ≤ 600 ∧
      ((∀ k : ℕ, k < 600 →
          ∃ t ∈ ts, (k : ℚ) * frameIntervalMs ≤ t ∧ t < ((k : ℚ) + 1) * frameIntervalMs) →
        captureFrame ts 0 = 600) :=
  ⟨captureFrame_le_600 ts 0 (by norm_num),
   fun hcov =>
     captureFrame_eq_600_of_covered ts 0 hsort (by norm_num)
       (fun k _ hk => hcov k hk)⟩

/-- One callback exactly at every expected frame boundary. -/
def boundaryTimes : List ℚ :=
  (List.range 600).map fun k : ℕ => (k : ℚ) * frameIntervalMs

set_option maxRecDepth 4000 in
theorem captureFrame_jitter_bounds_witness :
    captureFrame boundaryTimes 0 ≤ 600 ∧ captureFrame boundaryTimes 0 = 600 := by
  have hsort : List.Sorted (· < ·) boundaryTimes := by
    have h0 := List.sorted_lt_range 600
    unfold boundaryTimes
    refine List.pairwise_map.mpr ?_
    exact h0.imp fun hab =>
      mul_lt_mul_of_pos_right (by exact_mod_cast hab) frameIntervalMs_pos
  have h := captureFrame_jitter_bounds boundaryTimes hsort
  refine ⟨h.1, h.2 ?_⟩
  intro k hk
  refine ⟨(k : ℚ) * frameIntervalMs, ?_, le_rfl, ?_⟩
  · exact List.mem_map.mpr ⟨k, List.mem_range.mpr hk, rfl⟩
  · exact mul_lt_mul_of_pos_right (lt_add_one _) frameIntervalMs_pos

/-! ## The `LissajousSketch` simulation (second revision in the sources)

Float arithmetic is read as real arithmetic.  The `if` conditions compare
reals, so the definitions below are classical (noncomputable); the
structure of every definition follows the TypeScript source line by line. -/

open scoped Classical

/-- The `mode` field of `LissajousSketch`: `'classic' | 'harmonic' | 'table'`. -/
inductive Mode
  | classic
  | harmonic
  | table
  deriving DecidableEq

/-- The `state` field of `LissajousSketch`: `'HOLD' | 'TRANSITION'`. -/
inductive MachineState
  | HOLD
  | TRANSITION
  deriving DecidableEq

/-- A parameter triple `{a, b, delta}` (used for `currentParams`,
`currentVelocity`, `targetParams` and the keyframes). -/
structure Params where
  a : ℝ
  b : ℝ
  delta : ℝ

/-- One scalar spring field: the pair of `currentParams[key]` and
`currentVelocity[key]` that `applySpringForce(key)` reads and writes. -/
structure Spring1 where
  cur : ℝ
  vel : ℝ

/-- `applySpringForce` of `LissajousSketch` for one field, as a function
from the field state (plus the public `mode`, `stiffness`, `damping`,
`mass` and the field's target) to the new field state.

Mirrors the source: linear force `displacement * stiffness` and damping
factor `damping` by default; in harmonic mode the stiffness is
interpolated (`minStiffness + (maxStiffness - minStiffness) *
(min distAbs 1)^6`), the damping factor is `2 * sqrt(mass * k_eff) * 4`,
and an early snap at thresholds `0.00001` returns before integration.
Then explicit Euler integration and a final snap at thresholds `0.0001`
(harmonic) or `0.001` (classic). -/
noncomputable def applySpringForce (mode : Mode) (stiffness damping mass : ℝ)
    (target : ℝ) (p : Spring1) : Spring1 :=
  let displacement := target - p.cur
  let distAbs := |displacement|
  let maxStiffness : ℝ := 1.0
  let minStiffness : ℝ := 0.00001
  let dampZeta : ℝ := 4.0
  let distNorm := min distAbs 1.0
  let kEff := minStiffness + (maxStiffness - minStiffness) * distNorm ^ (6 : ℕ)
  let force := if mode = Mode.harmonic then displacement * kEff
               else displacement * stiffness
  let dampingFactor := if mode = Mode.harmonic then 2 * Real.sqrt (mass * kEff) * dampZeta
                       else damping
  if mode = Mode.harmonic ∧ distAbs < 0.00001 ∧ |p.vel| < 0.00001 then
    { cur := target, vel := 0 }
  else
    let dampingForce := p.vel * dampingFactor
    let accel := (force - dampingForce) / mass
    let vel2 := p.vel + accel
    let cur2 := p.cur + vel2
    let snapThreshold : ℝ := if mode = Mode.harmonic then 0.0001 else 0.001
    let velThreshold : ℝ := if mode = Mode.harmonic then 0.0001 else 0.001
    if distAbs < snapThreshold ∧ |vel2| < velThreshold then
      { cur := target, vel := 0 }
    else
      { cur := cur2, vel := vel2 }

/-- The fixed keyframe list `phases` of `LissajousSketch`. -/
noncomputable def phases : List Params :=
  [⟨1, 1, Real.pi / 2⟩, ⟨1, 2, Real.pi / 2⟩, ⟨1, 3, Real.pi / 2⟩,
   ⟨3, 4, Real.pi / 2⟩, ⟨3, 5, Real.pi / 2⟩]

/-- The index/direction core of `switchTarget`, over an arbitrary keyframe
list length: `nextIndex = index + direction`; if it would pass the end,
flip to `-1` and clamp to `length - 2`; if it would pass the start, flip
to `+1` and clamp to `1`.  Returns the new `(currentPhaseIndex, direction)`. -/
def switchTarget (len : ℕ) (index dir : ℤ) : ℤ × ℤ :=
  let next := index + dir
  if next ≥ (len : ℤ) then ((len : ℤ) - 2, -1)
  else if next < 0 then (1, 1)
  else (next, dir)

/-- The full mutable state of a `LissajousSketch` instance. -/
structure LState where
  t : ℝ
  timer : ℕ
  frame : ℕ
  phase : MachineState
  mode : Mode
  stiffness : ℝ
  damping : ℝ
  mass : ℝ
  holdDuration : ℝ
  transitionDuration : ℝ
  currentPhaseIndex : ℤ
  direction : ℤ
  currentParams : Params
  currentVelocity : Params
  targetParams : Params

/-- `switchTarget` acting on the sketch state: updates the cursor and sets
`targetParams = phases[nextIndex]`. -/
noncomputable def switchTargetState (s : LState) : LState :=
  let r := switchTarget phases.length s.currentPhaseIndex s.direction
  { s with currentPhaseIndex := r.1, direction := r.2,
           targetParams := phases.getD r.1.toNat ⟨0, 0, 0⟩ }

/-- The first half of `updateLogic`: `t += timeStep` (`timeStep = 0.01` in
this revision), `timer++`, then `applySpringForce` on each of the three
fields (the three per-field updates are independent). -/
noncomputable def stepPhysics (s : LState) : LState :=
  let pa := applySpringForce s.mode s.stiffness s.damping s.mass
    s.targetParams.a ⟨s.currentParams.a, s.currentVelocity.a⟩
  let pb := applySpringForce s.mode s.stiffness s.damping s.mass
    s.targetParams.b ⟨s.currentParams.b, s.currentVelocity.b⟩
  let pd := applySpringForce s.mode s.stiffness s.damping s.mass
    s.targetParams.delta ⟨s.currentParams.delta, s.currentVelocity.delta⟩
  { s with t := s.t + 0.01, timer := s.timer + 1,
           currentParams := ⟨pa.cur, pb.cur, pd.cur⟩,
           currentVelocity := ⟨pa.vel, pb.vel, pd.vel⟩ }

/-- The `isSettled` check of `updateLogic`: exact equality of current and
target on all three fields. -/
def isSettled (s : LState) : Prop :=
  s.currentParams.a = s.targetParams.a ∧
    s.currentParams.b = s.targetParams.b ∧
    s.currentParams.delta = s.targetParams.delta

/-- `updateLogic` of `LissajousSketch` (second revision): physics first,
then the HOLD/TRANSITION machine.  In TRANSITION, harmonic mode finishes
when settled or `timer > 1800`, other modes when
`timer ≥ transitionDuration`; finishing snaps `currentParams` to
`targetParams`, zeroes `currentVelocity`, re-enters HOLD and resets the
timer. -/
noncomputable def updateLogic (s : LState) : LState :=
  let s2 := stepPhysics s
  match s2.phase with
  | MachineState.HOLD =>
      if (s2.timer : ℝ) ≥ s2.holdDuration then
        switchTargetState { s2 with phase := MachineState.TRANSITION, timer := 0 }
      else s2
  | MachineState.TRANSITION =>
      if (if s2.mode = Mode.harmonic then isSettled s2 ∨ s2.timer > 1800
          else (s2.timer : ℝ) ≥ s2.transitionDuration) then
        { s2 with phase := MachineState.HOLD, timer := 0,
                  currentParams := s2.targetParams,
                  currentVelocity := ⟨0, 0, 0⟩ }
      else s2

/-- The `mode` property setter of `LissajousSketch`: on an actual change it
stores the new mode and zeroes `currentVelocity`; otherwise it does
nothing. -/
def setMode (v : Mode) (s : LState) : LState :=
  if s.mode ≠ v then { s with mode := v, currentVelocity := ⟨0, 0, 0⟩ }
  else s

/-! ## Recorder hook state (`useCanvasRecorder`) and page component (`Home`)

`startRecording` checks the canvas ref and the memoized encoder-load flag;
when either is missing it returns without touching the session state, and
when the encoder is not loaded it raises the blocking
"Video encoder still loading, please wait..." alert.  Otherwise it marks
the session active, clears the frame queue and starts the capture loop
(modelled separately by `captureFrame`).  The boolean output reports
whether the alert fired. -/

/-- Session state of the recorder hook.  Captured snapshot blobs are
abstracted by identifiers; only count and order matter here. -/
structure RecorderState where
  loaded : Bool
  canvasPresent : Bool
  isRecording : Bool
  frames : List ℕ

/-- `startRecording` of `use-canvas-recorder.ts` up to the start of the
capture loop.  Second component: whether the "not ready" alert fired. -/
def startRecording (s : RecorderState) : RecorderState × Bool :=
  if !s.canvasPresent || !s.loaded then (s, !s.loaded)
  else ({ s with isRecording := true, frames := [] }, false)

/-- The page component's export quality toggle: `'hq' | '256kb'`. -/
inductive Quality
  | hq
  | kb256
  deriving DecidableEq

/-- The page component state read and written by `handleExport`. -/
structure HomeState where
  recorder : RecorderState
  resetKey : ℕ
  quality : Quality

/-- `handleExport` of the page component: rejected outright while a
recording session is active; otherwise bumps `resetKey` and schedules
`startRecording(bitrate)`.  The second component is the scheduled
`startRecording` bitrate (`none` when no start was scheduled), standing
for the `setTimeout(() => startRecording(bitrate), 150)` call. -/
def handleExport (s : HomeState) : HomeState × Option ℕ :=
  if s.recorder.isRecording then (s, none)
  else ({ s with resetKey := s.resetKey + 1 },
        some (if s.quality = Quality.hq then 25000000 else 350000))

/-! ## Geometry produced by `drawHarmonic` (second revision)

The harmonic-mode draw call computes every coordinate from fixed 1:1
constants (`hA = 1`, `hB = 1`, `hDelta = π/2` for the traced curve;
`physA = 1`, `physB = 1`, `physDelta = π/2` for the moving point) and the
accumulated time `this.t`; colors and stroke widths are constants or
arguments.  The record below collects all drawn coordinates. -/

structure HGeom where
  curve : List (ℝ × ℝ)
  point : ℝ × ℝ
  trackTop : (ℝ × ℝ) × (ℝ × ℝ)
  trackLeft : (ℝ × ℝ) × (ℝ × ℝ)
  springTop : (ℝ × ℝ) × (ℝ × ℝ)
  springLeft : (ℝ × ℝ) × (ℝ × ℝ)
  massTop : ℝ × ℝ
  massLeft : ℝ × ℝ
  projTop : (ℝ × ℝ) × (ℝ × ℝ)
  projLeft : (ℝ × ℝ) × (ℝ × ℝ)

/-- All coordinates drawn by `drawHarmonic` for a given state and canvas
size (the 2000-sample traced curve, the moving point, oscillator tracks,
springs, masses and projector lines). -/
noncomputable def drawHarmonicGeom (s : LState) (width height : ℝ) : HGeom :=
  let centerX := width / 2
  let centerY := height / 2
  let scale := min width height * 0.35
  let maxT := Real.pi * 2
  let hA : ℝ := 1
  let hB : ℝ := 1
  let hDelta := Real.pi / 2
  let R : ℝ := 1
  let curve := (List.range 2001).map fun i : ℕ =>
    let τ := ((i : ℝ) / 2000) * maxT
    (centerX + R * Real.sin (hA * τ + hDelta) * scale,
     centerY + R * Real.sin (hB * τ) * scale)
  let physA : ℝ := 1
  let physB : ℝ := 1
  let physDelta := Real.pi / 2
  let pxVal := R * Real.sin (physA * s.t + physDelta)
  let pyVal := R * Real.sin (physB * s.t)
  let px := centerX + pxVal * scale
  let py := centerY + pyVal * scale
  let oscOffset : ℝ := 1.2
  let oscXY := centerY - scale * oscOffset
  let oscYX := centerX - scale * oscOffset
  let anchorX := centerX - scale
  let massX := centerX + pxVal * scale
  let anchorY := centerY - scale
  let massY := centerY + pyVal * scale
  { curve := curve
    point := (px, py)
    trackTop := ((centerX - scale, oscXY), (centerX + scale, oscXY))
    trackLeft := ((oscYX, centerY - scale), (oscYX, centerY + scale))
    springTop := ((anchorX, oscXY), (massX, oscXY))
    springLeft := ((oscYX, anchorY), (oscYX, massY))
    massTop := (massX, oscXY)
    massLeft := (oscYX, massY)
    projTop := ((massX, oscXY), (massX, py))
    projLeft := ((oscYX, massY), (px, massY)) }

/-! ## Claim theorems: sequencer, export guards, mode setter, harmonic draw -/

/-- C2: for every keyframe-list length ≥ 2, cursor index in bounds and
direction in ±1, one `switchTarget` call yields an in-bounds index
different from the previous one; the direction flips only at the two
domain boundaries, a high-boundary flip clamps the index to `length - 2`,
a low-boundary flip clamps it to `1`, and otherwise the cursor moves one
step in the current direction. -/
theorem switchTarget_ping_pong (len : ℕ) (i dir : ℤ) (hlen : 2 ≤ len)
    (hi0 : 0 ≤ i) (hi1 : i < (len : ℤ)) (hdir : dir = 1 ∨ dir = -1) :
    (0 ≤ (switchTarget len i dir).1 ∧ (switchTarget len i dir).1 < (len : ℤ)) ∧
      (switchTarget len i dir).1 ≠ i ∧
      ((switchTarget len i dir).2 ≠ dir → ((len : ℤ) ≤ i + dir ∨ i + dir < 0)) ∧
      ((len : ℤ) ≤ i + dir →
        (switchTarget len i dir).1 = (len : ℤ) - 2 ∧ (switchTarget len i dir).2 = -1) ∧
      (i + dir < 0 →
        (switchTarget len i dir).1 = 1 ∧ (switchTarget len i dir).2 = 1) ∧
      (0 ≤ i + dir → i + dir < (len : ℤ) →
        (switchTarget len i dir).1 = i + dir ∧ (switchTarget len i dir).2 = dir) := by
  have h2 : (2 : ℤ) ≤ (len : ℤ) := by exact_mod_cast hlen
  simp only [switchTarget]
  split_ifs with hA hB <;> dsimp only <;>
    refine ⟨⟨?_, ?_⟩, ?_, ?_, ?_, ?_, ?_⟩ <;> omega

theorem switchTarget_ping_pong_witness :
    ((0 ≤ (switchTarget 5 4 1).1 ∧ (switchTarget 5 4 1).1 < (5 : ℤ)) ∧
      (switchTarget 5 4 1).1 ≠ 4 ∧
      ((switchTarget 5 4 1).2 ≠ 1 → ((5 : ℤ) ≤ 4 + 1 ∨ (4 : ℤ) + 1 < 0)) ∧
      ((5 : ℤ) ≤ 4 + 1 →
        (switchTarget 5 4 1).1 = (5 : ℤ) - 2 ∧ (switchTarget 5 4 1).2 = -1) ∧
      ((4 : ℤ) + 1 < 0 →
        (switchTarget 5 4 1).1 = 1 ∧ (switchTarget 5 4 1).2 = 1) ∧
      (0 ≤ (4 : ℤ) + 1 → (4 : ℤ) + 1 < (5 : ℤ) →
        (switchTarget 5 4 1).1 = 4 + 1 ∧ (switchTarget 5 4 1).2 = 1)) :=
  switchTarget_ping_pong 5 4 1 (by norm_num) (by norm_num) (by norm_num)
    (Or.inl rfl)

/-- C7: requesting an export while a capture session is active is rejected
as a no-op: the state (in particular the captured frame queue) is
unchanged and no `startRecording` call is scheduled. -/
theorem handleExport_rejected_while_recording (s : HomeState)
    (h : s.recorder.isRecording = true) :
    handleExport s = (s, none) ∧
      (handleExport s).1.recorder.frames = s.recorder.frames ∧
      (handleExport s).1.recorder.isRecording = true := by
  unfold handleExport
  rw [if_pos h]
  exact ⟨rfl, rfl, h⟩

def busyHome : HomeState :=
  { recorder := { loaded := true, canvasPresent := true, isRecording := true,
                  frames := [0, 1, 2] },
    resetKey := 7, quality := Quality.hq }

theorem handleExport_rejected_while_recording_witness :
    handleExport busyHome = (busyHome, none) ∧
      (handleExport busyHome).1.recorder.frames = busyHome.recorder.frames ∧
      (handleExport busyHome).1.recorder.isRecording = true :=
  handleExport_rejected_while_recording busyHome rfl

/-- C8: when the encoder has not loaded, `startRecording` refuses to start:
the "not ready" alert fires synchronously and the state — `isRecording`,
the frame queue, everything — is left untouched. -/
theorem startRecording_refuses_unloaded (s : RecorderState)
    (h : s.loaded = false) :
    (startRecording s).1 = s ∧ (startRecording s).2 = true := by
  unfold startRecording
  rw [if_pos (by rw [h]; simp)]
  exact ⟨rfl, by rw [h]; rfl⟩

def unloadedRecorder : RecorderState :=
  { loaded := false, canvasPresent := true, isRecording := false, frames := [] }

theorem startRecording_refuses_unloaded_witness :
    (startRecording unloadedRecorder).1 = unloadedRecorder ∧
      (startRecording unloadedRecorder).2 = true :=
  startRecording_refuses_unloaded unloadedRecorder rfl

/-- C9: setting the visualization mode to a different value zeroes the
velocity triple and nothing else (current, target, cursor, direction,
phase, timer and accumulated time are untouched); setting it to the same
value changes nothing. -/
theorem setMode_zeroes_velocity_only (v : Mode) (s : LState) :
    (setMode v s).currentParams = s.currentParams ∧
      (setMode v s).targetParams = s.targetParams ∧
      (setMode v s).currentPhaseIndex = s.currentPhaseIndex ∧
      (setMode v s).direction = s.direction ∧
      (setMode v s).phase = s.phase ∧
      (setMode v s).timer = s.timer ∧
      (setMode v s).t = s.t ∧
      (s.mode ≠ v →
        (setMode v s).currentVelocity = ⟨0, 0, 0⟩ ∧ (setMode v s).mode = v) ∧
      (s.mode = v → setMode v s = s) := by
  unfold setMode
  by_cases h : s.mode ≠ v
  · rw [if_pos h]
    exact ⟨rfl, rfl, rfl, rfl, rfl, rfl, rfl, fun _ => ⟨rfl, rfl⟩,
      fun he => absurd he h⟩
  · rw [if_neg h]
    push_neg at h
    exact ⟨rfl, rfl, rfl, rfl, rfl, rfl, rfl, fun hne => absurd h hne,
      fun _ => rfl⟩

/-- A concrete sketch state in classic mode, mid-flight, for witnesses. -/
noncomputable def classicState : LState :=
  { t := 3, timer := 100, frame := 100, phase := MachineState.TRANSITION,
    mode := Mode.classic, stiffness := 0.02, damping := 0.2, mass := 1,
    holdDuration := 120, transitionDuration := 120,
    currentPhaseIndex := 1, direction := 1,
    currentParams := ⟨1, 1.5, 2⟩, currentVelocity := ⟨0.1, 0.2, 0.3⟩,
    targetParams := ⟨1, 2, 2⟩ }

theorem setMode_zeroes_velocity_only_witness :
    (setMode Mode.harmonic classicState).currentVelocity = ⟨0, 0, 0⟩ ∧
      setMode Mode.classic classicState = classicState :=
  ⟨((setMode_zeroes_velocity_only Mode.harmonic classicState).2.2.2.2.2.2.2.1
      (by intro h; exact Mode.noConfusion h)).1,
   (setMode_zeroes_velocity_only Mode.classic classicState).2.2.2.2.2.2.2.2 rfl⟩

/-- C10: the geometry drawn in harmonic mode depends only on the
accumulated time `t` — two states with equal `t` but arbitrary simulation
fields (current, target, velocity, cursor) produce identical output, since
the traced curve and the moving point are computed from the fixed
constants `a = 1`, `b = 1`, `delta = π/2`. -/
theorem drawHarmonic_independent_of_simulation (s s' : LState) (width height : ℝ)
    (ht : s.t = s'.t) :
    drawHarmonicGeom s width height = drawHarmonicGeom s' width height := by
  unfold drawHarmonicGeom
  rw [ht]

/-- A second state sharing only `t` with `classicState`. -/
noncomputable def scrambledState : LState :=
  { t := 3, timer := 55, frame := 900, phase := MachineState.HOLD,
    mode := Mode.harmonic, stiffness := 0.1, damping := 0.9, mass := 2,
    holdDuration := 10, transitionDuration := 10,
    currentPhaseIndex := 4, direction := -1,
    currentParams := ⟨3, 5, 0⟩, currentVelocity := ⟨7, 8, 9⟩,
    targetParams := ⟨3, 4, 1⟩ }

theorem drawHarmonic_independent_of_simulation_witness :
    drawHarmonicGeom classicState 1080 1350 =
      drawHarmonicGeom scrambledState 1080 1350 :=
  drawHarmonic_independent_of_simulation classicState scrambledState 1080 1350 rfl

/-! ## Spring-engine helper forms

The local bindings `k_eff`, `dampingFactor` and the Euler velocity update
of the harmonic branch of `applySpringForce`, named so the theorems can
speak about them. -/

/-- The harmonic-mode interpolated stiffness `k_eff` for a displacement. -/
noncomputable def kEff (d : ℝ) : ℝ :=
  0.00001 + (1.0 - 0.00001) * (min |d| 1.0) ^ (6 : ℕ)

/-- The harmonic-mode damping factor: `dampZeta = 4` times the critical
damping `2 * sqrt(mass * k_eff)`. -/
noncomputable def dampingEff (m d : ℝ) : ℝ :=
  2 * Real.sqrt (m * kEff d) * 4.0

/-- The post-integration velocity of one harmonic step. -/
noncomputable def harmonicVel2 (m targ : ℝ) (p : Spring1) : ℝ :=
  p.vel + ((targ - p.cur) * kEff (targ - p.cur) -
    p.vel * dampingEff m (targ - p.cur)) / m

/-- Closed form of the classic (linear) step: Euler-update the velocity and
position, then snap when both thresholds `0.001` are met. -/
lemma applySpringForce_classic_eq (st dp m targ : ℝ) (p : Spring1) :
    applySpringForce Mode.classic st dp m targ p =
      (if |targ - p.cur| < 0.001 ∧
          |p.vel + ((targ - p.cur) * st - p.vel * dp) / m| < 0.001
       then ⟨targ, 0⟩
       else ⟨p.cur + (p.vel + ((targ - p.cur) * st - p.vel * dp) / m),
             p.vel + ((targ - p.cur) * st - p.vel * dp) / m⟩) := by
  have hm : ¬(Mode.classic = Mode.harmonic) := fun h => Mode.noConfusion h
  simp only [applySpringForce, hm, false_and, if_false, ite_false]

/-- Closed form of the harmonic step when the early (pre-integration) snap
does not fire. -/
lemma applySpringForce_harmonic_eq (st dp m targ : ℝ) (p : Spring1)
    (h1 : ¬(|targ - p.cur| < 0.00001 ∧ |p.vel| < 0.00001)) :
    applySpringForce Mode.harmonic st dp m targ p =
      (if |targ - p.cur| < 0.0001 ∧ |harmonicVel2 m targ p| < 0.0001
       then ⟨targ, 0⟩
       else ⟨p.cur + harmonicVel2 m targ p, harmonicVel2 m targ p⟩) := by
  simp only [applySpringForce, harmonicVel2, kEff, dampingEff,
    eq_self_iff_true, if_true, true_and]
  rw [if_neg h1]

/-- The harmonic step when the early snap does fire. -/
lemma applySpringForce_harmonic_early (st dp m targ : ℝ) (p : Spring1)
    (h1 : |targ - p.cur| < 0.00001 ∧ |p.vel| < 0.00001) :
    applySpringForce Mode.harmonic st dp m targ p = ⟨targ, 0⟩ := by
  simp only [applySpringForce, eq_self_iff_true, if_true, true_and]
  rw [if_pos h1]

/-- C5: in the harmonic profile, whenever neither snap fires, one step is
exactly an explicit-Euler integration with interpolated stiffness
`k_eff = min + (max - min) * clamp(|d|,0,1)^power` (`min = 1e-5`,
`max = 1`, `power = 6 > 1`) and damping `2 * sqrt(mass * k_eff) * zeta`
(`zeta = 4 > 1`): `accel = (d * k_eff - vel * damping_eff) / mass`,
`vel += accel`, `cur += vel`. -/
theorem applySpringForce_harmonic_formulas (st dp m targ : ℝ) (p : Spring1)
    (h1 : ¬(|targ - p.cur| < 0.00001 ∧ |p.vel| < 0.00001))
    (h2 : ¬(|targ - p.cur| < 0.0001 ∧ |harmonicVel2 m targ p| < 0.0001)) :
    applySpringForce Mode.harmonic st dp m targ p =
        ⟨p.cur + harmonicVel2 m targ p, harmonicVel2 m targ p⟩ ∧
      kEff (targ - p.cur) =
        0.00001 + (1.0 - 0.00001) * (min (max |targ - p.cur| 0) 1.0) ^ (6 : ℕ) ∧
      dampingEff m (targ - p.cur) =
        2 * Real.sqrt (m * kEff (targ - p.cur)) * 4.0 ∧
      harmonicVel2 m targ p =
        p.vel + ((targ - p.cur) * kEff (targ - p.cur) -
          p.vel * dampingEff m (targ - p.cur)) / m ∧
      (1 : ℝ) < 6 ∧ (1 : ℝ) < 4 := by
  refine ⟨?_, ?_, rfl, rfl, by norm_num, by norm_num⟩
  · rw [applySpringForce_harmonic_eq st dp m targ p h1, if_neg h2]
  · rw [kEff, max_eq_left (abs_nonneg _)]

theorem applySpringForce_harmonic_formulas_witness :
    applySpringForce Mode.harmonic 0.02 0.2 1 1 ⟨0, 0⟩ =
        ⟨0 + harmonicVel2 1 1 ⟨0, 0⟩, harmonicVel2 1 1 ⟨0, 0⟩⟩ ∧
      kEff (1 - 0) =
        0.00001 + (1.0 - 0.00001) * (min (max |(1 : ℝ) - 0| 0) 1.0) ^ (6 : ℕ) ∧
      dampingEff 1 (1 - 0) = 2 * Real.sqrt (1 * kEff (1 - 0)) * 4.0 ∧
      harmonicVel2 1 1 ⟨0, 0⟩ =
        0 + ((1 - 0) * kEff (1 - 0) - 0 * dampingEff 1 (1 - 0)) / 1 ∧
      (1 : ℝ) < 6 ∧ (1 : ℝ) < 4 :=
  applySpringForce_harmonic_formulas 0.02 0.2 1 1 ⟨0, 0⟩
    (by norm_num)
    (fun h => by norm_num at h)

/-- C6 counterexample: in harmonic mode a displacement of `5e-5` (above the
claimed snap threshold `1e-5`) still snaps: starting at rest the step ends
with `current = target`, `velocity = 0`, because the post-integration snap
threshold in the code is `1e-4`, not `1e-5`. -/
theorem applySpringForce_harmonic_coarse_snap :
    applySpringForce Mode.harmonic 0.02 0.2 1 0.00005 ⟨0, 0⟩ = ⟨0.00005, 0⟩ ∧
      ¬(|(0.00005 : ℝ) - 0| < 0.00001) := by
  constructor
  · rw [applySpringForce_harmonic_eq 0.02 0.2 1 0.00005 ⟨0, 0⟩
      (by norm_num [abs_of_nonneg])]
    rw [if_pos]
    constructor
    · norm_num [abs_of_nonneg]
    · simp only [harmonicVel2, kEff]
      norm_num [abs_of_nonneg, min_eq_left]
  · norm_num [abs_of_nonneg]

/-- C6 (amended): the hard-snap (`current = target`, `velocity = 0`) fires
in the classic profile exactly when `|d| < 0.001` and the post-integration
velocity satisfies `|vel| < 0.001`; in the harmonic profile exactly when
either the pre-integration early snap (`|d| < 1e-5` and `|vel| < 1e-5`,
skipping integration) fires, or the post-integration snap at the coarser
thresholds `1e-4` (not `1e-5`) fires. -/
theorem applySpringForce_snap_characterization (st dp m targ : ℝ) (p : Spring1) :
    (applySpringForce Mode.classic st dp m targ p = ⟨targ, 0⟩ ↔
      (|targ - p.cur| < 0.001 ∧
        |p.vel + ((targ - p.cur) * st - p.vel * dp) / m| < 0.001)) ∧
    (applySpringForce Mode.harmonic st dp m targ p = ⟨targ, 0⟩ ↔
      ((|targ - p.cur| < 0.00001 ∧ |p.vel| < 0.00001) ∨
        (|targ - p.cur| < 0.0001 ∧ |harmonicVel2 m targ p| < 0.0001))) := by
  constructor
  · rw [applySpringForce_classic_eq]
    by_cases hc : |targ - p.cur| < 0.001 ∧
        |p.vel + ((targ - p.cur) * st - p.vel * dp) / m| < 0.001
    · rw [if_pos hc]
      exact ⟨fun _ => hc, fun _ => rfl⟩
    · rw [if_neg hc]
      constructor
      · intro he
        exfalso
        rw [Spring1.mk.injEq] at he
        have hv : p.vel + ((targ - p.cur) * st - p.vel * dp) / m = 0 := he.2
        have hd : targ - p.cur = 0 := by
          have := he.1
          rw [hv, add_zero] at this
          linarith
        exact hc ⟨by rw [hd]; norm_num, by rw [hv]; norm_num⟩
      · intro hcond
        exact absurd hcond hc
  · by_cases h1 : |targ - p.cur| < 0.00001 ∧ |p.vel| < 0.00001
    · rw [applySpringForce_harmonic_early st dp m targ p h1]
      exact ⟨fun _ => Or.inl h1, fun _ => rfl⟩
    · rw [applySpringForce_harmonic_eq st dp m targ p h1]
      by_cases h2 : |targ - p.cur| < 0.0001 ∧ |harmonicVel2 m targ p| < 0.0001
      · rw [if_pos h2]
        exact ⟨fun _ => Or.inr h2, fun _ => rfl⟩
      · rw [if_neg h2]
        constructor
        · intro he
          exfalso
          rw [Spring1.mk.injEq] at he
          have hv : harmonicVel2 m targ p = 0 := he.2
          have hd : targ - p.cur = 0 := by
            have := he.1
            rw [hv, add_zero] at this
            linarith
          exact h2 ⟨by rw [hd]; norm_num, by rw [hv]; norm_num⟩
        · intro hcond
          rcases hcond with hcond | hcond
          · exact absurd hcond h1
          · exact absurd hcond h2

lemma kEff_one : kEff (1 - 0 : ℝ) = 1 := by
  norm_num [kEff, abs_of_nonneg]

lemma kEff_zero : kEff (1 - 1 : ℝ) = 0.00001 := by
  norm_num [kEff, min_eq_left]

lemma dampingEff_zero : dampingEff 1 (1 - 1 : ℝ) = 8 * Real.sqrt 0.00001 := by
  rw [dampingEff, kEff_zero, one_mul]
  norm_num
  ring

lemma sqrt_small : Real.sqrt (0.00001 : ℝ) < 0.004 :=
  (Real.sqrt_lt' (by norm_num)).mpr (by norm_num)

lemma harmonicVel2_settled : harmonicVel2 1 1 (⟨1, 1⟩ : Spring1) =
    1 - 8 * Real.sqrt 0.00001 := by
  rw [harmonicVel2]
  dsimp only
  rw [dampingEff_zero, kEff_zero]
  ring

/-- C4 evidence: the harmonic integrator does overshoot.  With mass `1/4`
(inside the UI range), one step from rest at displacement `1` jumps to
`current = 4`, flipping the sign of `target - current` from `+1` to `-3`;
and even at the default mass `1`, two steps from rest at displacement `1`
land exactly on the target with velocity `1` and then sail past it
(`current > target` afterwards). -/
theorem applySpringForce_harmonic_overshoot :
    (0 : ℝ) < 1 - (Spring1.mk 0 0).cur ∧
      (applySpringForce Mode.harmonic 0.02 0.2 (1 / 4) 1 ⟨0, 0⟩).cur = 4 ∧
      (1 : ℝ) - 4 < 0 ∧
      applySpringForce Mode.harmonic 0.02 0.2 1 1 ⟨0, 0⟩ = ⟨1, 1⟩ ∧
      1 < (applySpringForce Mode.harmonic 0.02 0.2 1 1 ⟨1, 1⟩).cur := by
  have hnn : (0 : ℝ) ≤ Real.sqrt 0.00001 := Real.sqrt_nonneg _
  refine ⟨by norm_num, ?_, by norm_num, ?_, ?_⟩
  · rw [applySpringForce_harmonic_eq 0.02 0.2 (1 / 4) 1 ⟨0, 0⟩
      (by norm_num [abs_of_nonneg])]
    rw [if_neg (by norm_num [abs_of_nonneg])]
    show (0 : ℝ) + harmonicVel2 (1 / 4) 1 ⟨0, 0⟩ = 4
    rw [harmonicVel2]
    dsimp only
    rw [kEff_one]
    norm_num
  · rw [applySpringForce_harmonic_eq 0.02 0.2 1 1 ⟨0, 0⟩
      (by norm_num [abs_of_nonneg])]
    rw [if_neg (by norm_num [abs_of_nonneg])]
    rw [Spring1.mk.injEq]
    constructor
    · show (0 : ℝ) + harmonicVel2 1 1 ⟨0, 0⟩ = 1
      rw [harmonicVel2]
      dsimp only
      rw [kEff_one]
      norm_num
    · show harmonicVel2 1 1 ⟨0, 0⟩ = 1
      rw [harmonicVel2]
      dsimp only
      rw [kEff_one]
      norm_num
  · rw [applySpringForce_harmonic_eq 0.02 0.2 1 1 ⟨1, 1⟩ (by norm_num)]
    rw [if_neg ?hcond]
    case hcond =>
      rintro ⟨-, habs⟩
      rw [harmonicVel2_settled] at habs
      have h1 : (0.0001 : ℝ) ≤ |1 - 8 * Real.sqrt 0.00001| := by
        rw [abs_of_pos (by nlinarith [sqrt_small])]
        nlinarith [sqrt_small]
      exact absurd habs (not_lt.mpr h1)
    show (1 : ℝ) < (1 : ℝ) + harmonicVel2 1 1 ⟨1, 1⟩
    rw [harmonicVel2_settled]
    nlinarith [sqrt_small]

/-- In TRANSITION, `updateLogic` is the physics step followed by the
mode-dependent completion test. -/
lemma updateLogic_transition_eq (s : LState)
    (h : s.phase = MachineState.TRANSITION) :
    updateLogic s =
      if (if (stepPhysics s).mode = Mode.harmonic
          then isSettled (stepPhysics s) ∨ (stepPhysics s).timer > 1800
          else ((stepPhysics s).timer : ℝ) ≥ (stepPhysics s).transitionDuration) then
        { stepPhysics s with
            phase := MachineState.HOLD
            timer := 0
            currentParams := (stepPhysics s).targetParams
            currentVelocity := ⟨0, 0, 0⟩ }
      else stepPhysics s := by
  have hp : (stepPhysics s).phase = MachineState.TRANSITION := h
  simp only [updateLogic]
  rw [hp]

/-- C3: in TRANSITION the machine completes exactly when, after the frame's
physics, the harmonic mode is settled on all three fields or has passed the
1800-frame safety ceiling, and a non-harmonic mode has
`timer ≥ transitionDuration`; on completion `currentParams` is forced to
`targetParams` exactly, the velocity is zeroed, and the timer resets (state
becomes HOLD). -/
theorem updateLogic_transition_completion (s : LState)
    (h : s.phase = MachineState.TRANSITION) :
    (s.mode = Mode.harmonic →
      ((updateLogic s).phase = MachineState.HOLD ↔
        (isSettled (stepPhysics s) ∨ s.timer + 1 > 1800))) ∧
    (s.mode ≠ Mode.harmonic →
      ((updateLogic s).phase = MachineState.HOLD ↔
        ((s.timer : ℝ) + 1 ≥ s.transitionDuration))) ∧
    ((updateLogic s).phase = MachineState.HOLD →
      (updateLogic s).currentParams = s.targetParams ∧
      (updateLogic s).currentVelocity = ⟨0, 0, 0⟩ ∧
      (updateLogic s).timer = 0) := by
  have hp : (stepPhysics s).phase = MachineState.TRANSITION := h
  have hcast : ((s.timer + 1 : ℕ) : ℝ) = (s.timer : ℝ) + 1 := by push_cast; ring
  rw [updateLogic_transition_eq s h]
  split_ifs with hm1 hA hB
  · exact ⟨fun _ => ⟨fun _ => hA, fun _ => rfl⟩,
      fun hm0 => absurd hm1 hm0,
      fun _ => ⟨rfl, rfl, rfl⟩⟩
  · refine ⟨fun _ => ⟨fun he => ?_, fun ha => absurd ha hA⟩,
      fun hm0 => absurd hm1 hm0, fun he => ?_⟩
    · rw [hp] at he
      exact MachineState.noConfusion he
    · rw [hp] at he
      exact MachineState.noConfusion he
  · refine ⟨fun hmh => absurd hmh hm1,
      fun _ => ⟨fun _ => ?_, fun _ => rfl⟩, fun _ => ⟨rfl, rfl, rfl⟩⟩
    have hc2 : ((s.timer + 1 : ℕ) : ℝ) ≥ s.transitionDuration := hB
    rw [hcast] at hc2
    exact hc2
  · refine ⟨fun hmh => absurd hmh hm1,
      fun _ => ⟨fun he => ?_, fun hb => ?_⟩, fun he => ?_⟩
    · rw [hp] at he
      exact MachineState.noConfusion he
    · exfalso
      rw [← hcast] at hb
      exact hB hb
    · rw [hp] at he
      exact MachineState.noConfusion he

theorem updateLogic_transition_completion_witness :
    (classicState.mode = Mode.harmonic →
      ((updateLogic classicState).phase = MachineState.HOLD ↔
        (isSettled (stepPhysics classicState) ∨ classicState.timer + 1 > 1800))) ∧
    (classicState.mode ≠ Mode.harmonic →
      ((updateLogic classicState).phase = MachineState.HOLD ↔
        ((classicState.timer : ℝ) + 1 ≥ classicState.transitionDuration))) ∧
    ((updateLogic classicState).phase = MachineState.HOLD →
      (updateLogic classicState).currentParams = classicState.targetParams ∧
      (updateLogic classicState).currentVelocity = ⟨0, 0, 0⟩ ∧
      (updateLogic classicState).timer = 0) :=
  updateLogic_transition_completion classicState rfl
